import Mathlib

/-!
Verification of the audio-tempo-bot audio processing pipeline
(`src/audio_processor.py`) against its natural-language specification.

Python strings are modelled as `List Char`; Python's library operations
(`str.strip`, `str.replace`, `str.split(sep, 1)`, `str.lower`, slicing,
`pathlib.Path.stem`/`.suffix`) are given faithful executable models below.
The speed factor is a Python float (a binary64 double: the preset buttons
pass the doubles nearest 0.8 and 1.2, `dbl08`/`dbl12` below); a double is
modelled by the exact rational it denotes, each float operation result is
rounded to binary64 by `fl` (round to nearest, ties to even — exact for
the normal, non-overflowing range all values here live in), and the float
`int(...)` conversion is truncation toward zero (`pyInt`).
-/

/-- Python's default whitespace set for `str.strip`. -/
def pyIsSpace (c : Char) : Bool :=
  c = ' ' ∨ c = '\t' ∨ c = '\n' ∨ c = '\r' ∨ c = '\x0b' ∨ c = '\x0c'

/-- Python `s.strip()`: remove leading and trailing whitespace. -/
def pyStrip (l : List Char) : List Char :=
  ((l.dropWhile pyIsSpace).reverse.dropWhile pyIsSpace).reverse

/-- Python `s.lower()` (ASCII letters; the cascade only compares such). -/
def pyLower (l : List Char) : List Char := l.map Char.toLower

/-- Python `s.upper()`. -/
def pyUpper (l : List Char) : List Char := l.map Char.toUpper

/-- Helper for `pyTitleCase`: the Bool records whether the previous
character was alphabetic. -/
def pyTitleAux : Bool → List Char → List Char
  | _, [] => []
  | prev, c :: r =>
    (if c.isAlpha then (if prev then c.toLower else c.toUpper) else c) ::
      pyTitleAux c.isAlpha r

/-- Python `s.title()`: first letter of every word upper-cased, the rest
lower-cased. -/
def pyTitleCase (l : List Char) : List Char := pyTitleAux false l

/-- Python `pat in s`: substring containment. -/
def containsSub (pat : List Char) : List Char → Bool
  | [] => pat.isPrefixOf []
  | c :: r => pat.isPrefixOf (c :: r) || containsSub pat r

/-- Python `s.split(pat, 1)` for a pattern that occurs: the pieces before
and after the first occurrence.  `none` when `pat` does not occur. -/
def splitOnce (pat : List Char) : List Char → Option (List Char × List Char)
  | [] => if pat.isPrefixOf ([] : List Char) then some ([], []) else none
  | c :: r =>
    if pat.isPrefixOf (c :: r) then some ([], (c :: r).drop pat.length)
    else (splitOnce pat r).map (fun pr => (c :: pr.1, pr.2))

/-- Python `s.index(pat)` (as an `Option`): position of the first
occurrence of `pat` in `s`. -/
def indexOfSub (pat : List Char) : List Char → Option Nat
  | [] => if pat.isPrefixOf ([] : List Char) then some 0 else none
  | c :: r =>
    if pat.isPrefixOf (c :: r) then some 0
    else (indexOfSub pat r).map (fun n => n + 1)

/-- Fuel-driven scanner behind `pyReplace`: replaces non-overlapping
occurrences of `pat` left to right.  The fuel is an upper bound on the
number of characters scanned; `pyReplace` supplies `s.length`. -/
def replaceAux (pat rep : List Char) : Nat → List Char → List Char
  | 0, s => s
  | _ + 1, [] => []
  | fuel + 1, c :: r =>
    if pat ≠ [] ∧ pat.isPrefixOf (c :: r) then
      rep ++ replaceAux pat rep fuel ((c :: r).drop pat.length)
    else c :: replaceAux pat rep fuel r

/-- Python `s.replace(pat, rep)` for a non-empty pattern. -/
def pyReplace (s pat rep : List Char) : List Char := replaceAux pat rep s.length s

/-- The two-character windows tested by the prefix-containment stage
(line 228 of `audio_processor.py`). -/
def sepWindowList : List (List Char) :=
  [(" -"), (" –"), (" —"), (" :"), (" |"), (" /")].map String.data

/-- The skip loop of the prefix-containment stage (lines 226-230):
advance past blanks and blank-separator windows. -/
def skipSepRun : List Char → List Char
  | [] => []
  | c :: r =>
    if c = ' ' ∨ c = '\t' ∨ (List.take 2 (c :: r)) ∈ sepWindowList then skipSepRun r
    else c :: r

/-- The `while song_title and song_title[0] in seps: song_title =
song_title[1:].strip()` loops (lines 235-236 and 299-300), driven by fuel
(each iteration strictly shortens the string, so `s.length` fuel
suffices). -/
def stripSepLoop (seps : List Char) : Nat → List Char → List Char
  | 0, s => s
  | _ + 1, [] => []
  | fuel + 1, c :: r =>
    if c ∈ seps then stripSepLoop seps fuel (pyStrip r) else c :: r

/-- Entry point of the leading-separator-stripping loop. -/
def stripLeadSeps (seps s : List Char) : List Char := stripSepLoop seps s.length s

/-- Split a list at the LAST occurrence of character `ch`:
`some (before, after)`, or `none` when `ch` does not occur. -/
def splitLastOn (ch : Char) : List Char → Option (List Char × List Char)
  | [] => none
  | c :: r =>
    match splitLastOn ch r with
    | some pr => some (c :: pr.1, pr.2)
    | none => if c = ch then some ([], r) else none

/-- `pathlib.Path(p).name`: the component after the last slash. -/
def pyPathName (l : List Char) : List Char :=
  match splitLastOn '/' l with
  | some pr => pr.2
  | none => l

/-- `pathlib.Path(p).stem`: the name without its final extension (the
extension exists only when the last dot is neither the first nor the last
character of the name). -/
def pyStem (l : List Char) : List Char :=
  let n := pyPathName l
  match splitLastOn '.' n with
  | some pr => if pr.1 ≠ [] ∧ pr.2 ≠ [] then pr.1 else n
  | none => n

/-- `pathlib.Path(p).suffix`: the final extension including its dot, or
empty. -/
def pySuffix (l : List Char) : List Char :=
  let n := pyPathName l
  match splitLastOn '.' n with
  | some pr => if pr.1 ≠ [] ∧ pr.2 ≠ [] then '.' :: pr.2 else []
  | none => []

/-- The `" (Slowed)"` annotation (lines 141-142). -/
def slowedTag : List Char := (" (Slowed)").data

/-- The `" (Speed Up)"` annotation (lines 143-144). -/
def speedUpTag : List Char := (" (Speed Up)").data

/-- Speed tag selection from the factor (lines 140-146 and 468-473):
`" (Slowed)"` below 1.0, `" (Speed Up)"` above 1.0, nothing at 1.0. -/
def speedTagOf (f : ℚ) : List Char :=
  if f < 1 then slowedTag else if 1 < f then speedUpTag else []

/-- The ordered separator list of the title cascade (lines 159-165). -/
def separatorsList : List (List Char) :=
  [(" - "), (" – "), (" — "), (" : "), (": "), (" | "), (" / "),
   ("- "), ("– "), ("— "), (" -"), (" –"), (" —"), (":"), ("|"), ("/")].map String.data

/-- Line 152: strip both speed annotations from the raw title, then strip
whitespace. -/
def cleanTitle (t : List Char) : List Char :=
  pyStrip (pyReplace (pyReplace t slowedTag []) speedUpTag [])

/-- The four capitalisation variants of `artist + sep` tried at the start
of the title (lines 181-186). -/
def startPatternsFor (artist sep : List Char) : List (List Char) :=
  [artist ++ sep, pyLower artist ++ sep, pyUpper artist ++ sep, pyTitleCase artist ++ sep]

/-- The four capitalisation variants of `sep + artist` tried at the end of
the title (lines 198-203). -/
def endPatternsFor (artist sep : List Char) : List (List Char) :=
  [sep ++ artist, sep ++ pyLower artist, sep ++ pyUpper artist, sep ++ pyTitleCase artist]

/-- Cascade stage "Вариант 1" (lines 177-212): for each separator, try the
start patterns then the end patterns; on the first hit return the stripped
opposite side. -/
def sepMatchStage (tc artist : List Char) : Option (List Char) :=
  separatorsList.findSome? (fun sep =>
    match (startPatternsFor artist sep).find? (fun p => p.isPrefixOf tc) with
    | some p => some (pyStrip (tc.drop p.length))
    | none =>
      match (endPatternsFor artist sep).find? (fun p => p.isSuffixOf tc) with
      | some p => some (pyStrip (tc.take (tc.length - p.length)))
      | none => none)

/-- The separator characters stripped after prefix removal (line 235). -/
def dashSepChars : List Char := ("-–—:|/").data

/-- The separator-or-space characters stripped by the final
substring-removal stage (line 299). -/
def dashSepSpaceChars : List Char := ("-–—:|/ ").data

/-- Cascade stage "Вариант 2" (lines 214-237): case-insensitive prefix
containment of the artist, then skip separators/blanks, accept only when
characters remain. -/
def prefixMatchStage (tc artist : List Char) : Option (List Char) :=
  if (pyLower artist).isPrefixOf (pyLower tc) then
    let rest := skipSepRun (tc.drop artist.length)
    if rest ≠ [] then some (stripLeadSeps dashSepChars (pyStrip rest)) else none
  else none

/-- Cascade stage of lines 239-256: split on the first separator present;
accept the right side when the left equals the artist (case-insensitively)
or when the left is short (< 30) and the right is longer. -/
def splitEqStage (tc artistLower : List Char) : Option (List Char) :=
  separatorsList.findSome? (fun sep =>
    if containsSub sep tc then
      match splitOnce sep tc with
      | some pr =>
        let p1 := pyStrip pr.1
        let p2 := pyStrip pr.2
        if pyLower p1 = artistLower then some p2
        else if p1.length < 30 ∧ p1.length < p2.length then some p2
        else none
      | none => none
    else none)

/-- Loop body of the cascade stage of lines 258-277 (general separator
approach): keep the best right side, by latest first-occurrence position,
among separators whose right side is longer or whose left side is short
(< 20). -/
def longestSideStep (tc : List Char) (acc : Option (List Char) × Int) (sep : List Char) :
    Option (List Char) × Int :=
  if containsSub sep tc then
    match splitOnce sep tc with
    | some pr =>
      let p1 := pyStrip pr.1
      let p2 := pyStrip pr.2
      if p1.length < p2.length ∨ p1.length < 20 then
        match indexOfSub sep tc with
        | some idx => if acc.2 < (idx : Int) then (some p2, (idx : Int)) else acc
        | none => acc
      else acc
    | none => acc
  else acc

/-- Entry point of the general separator stage: fold the loop body over
the separators, then apply the best match only when truthy
(`if best_match:` — a `None` or empty best match leaves the title
unchanged). -/
def longestSideStage (tc : List Char) : Option (List Char) :=
  match (separatorsList.foldl (longestSideStep tc)
      ((none : Option (List Char)), (-1 : Int))).1 with
  | some b => if b ≠ [] then some b else none
  | none => none

/-- Cascade stage of lines 279-289 (forced split): take the stripped right
side of the first separator present. -/
def forcedSplitStage (tc : List Char) : Option (List Char) :=
  separatorsList.findSome? (fun sep =>
    if containsSub sep tc then (splitOnce sep tc).map (fun pr => pyStrip pr.2) else none)

/-- Final cascade stage (lines 291-302): when the artist is still
case-insensitively contained in the tentative title (and the title was
changed), remove the first EXACT-case occurrence, strip leading
separator/space residue, and accept only a non-empty remainder. -/
def substringRemovalStage (tc song artist : List Char) : List Char :=
  if artist ≠ [] ∧ containsSub (pyLower artist) (pyLower song) ∧ song ≠ tc then
    match splitOnce artist song with
    | some pr =>
      let remaining := stripLeadSeps dashSepSpaceChars (pyStrip (pr.1 ++ pr.2))
      if remaining ≠ [] then remaining else song
    | none => song
  else song

/-- The full artist-removal cascade of `process_audio` (lines 156-302),
from the cleaned title and the stripped artist to the derived song title.
The pair component records `found_and_removed` after the first two
stages. -/
def cascadeSong (tc artist : List Char) : List Char :=
  let st1 : List Char × Bool :=
    if artist ≠ [] then
      match sepMatchStage tc artist with
      | some s => (s, true)
      | none =>
        match prefixMatchStage tc artist with
        | some s => (s, true)
        | none => (tc, false)
    else (tc, false)
  let st2 : List Char :=
    if artist ≠ [] ∧ (st1.2 = false ∨ st1.1 = tc) then
      match splitEqStage tc (pyLower artist) with
      | some s => s
      | none => st1.1
    else st1.1
  let st3 : List Char :=
    if st2 = tc then
      match longestSideStage tc with
      | some s => s
      | none => st2
    else st2
  let st4 : List Char :=
    if artist ≠ [] ∧ st3 = tc then
      match forcedSplitStage tc with
      | some s => s
      | none => st3
    else st3
  substringRemovalStage tc st4 artist

/-- Line 308: the fallback-filename stem with speed annotations stripped. -/
def stemCleanOf (fn : List Char) : List Char :=
  pyStrip (pyReplace (pyReplace (pyStem fn) slowedTag []) speedUpTag [])

/-- Lines 148-312 without the speed tag: the base of the new title.
`none` when there is neither a non-empty source title nor a filename
hint. -/
def deriveBaseTitle (title artist : List Char) (origFname : Option (List Char)) :
    Option (List Char) :=
  if title ≠ [] then some (cascadeSong (cleanTitle title) (pyStrip artist))
  else
    match origFname with
    | some fn => some (stemCleanOf fn)
    | none => none

/-- Lines 148-312: the new title written to the output file, i.e. the
derived base title followed by the speed tag. -/
def deriveNewTitle (title artist : List Char) (origFname : Option (List Char))
    (f : ℚ) : Option (List Char) :=
  (deriveBaseTitle title artist origFname).map (fun s => s ++ speedTagOf f)

/-- Python `int(...)` applied to an exact value: truncation toward zero. -/
def pyInt (q : ℚ) : ℤ := if 0 ≤ q then ⌊q⌋ else ⌈q⌉

/-- Round-to-nearest, ties-to-even, of a rational to an integer: the
rounding used by IEEE-754 arithmetic. -/
def rne (x : ℚ) : ℤ :=
  if x - ⌊x⌋ < (1/2 : ℚ) then ⌊x⌋
  else if (1/2 : ℚ) < x - ⌊x⌋ then ⌊x⌋ + 1
  else if ⌊x⌋ % 2 = 0 then ⌊x⌋ else ⌊x⌋ + 1

/-- IEEE-754 binary64 rounding of an exact rational: round the
53-bit-scaled significand to nearest (ties to even) and rescale.  This is
exact for every normal, non-overflowing double — the range all of this
program's floats live in (sample rates, speed factors, percentages) — so
it models the result of each Python float operation. -/
def fl (q : ℚ) : ℚ :=
  if q = 0 then 0
  else ((rne (q / 2 ^ (Int.log 2 |q| - 52)) : ℚ)) * 2 ^ (Int.log 2 |q| - 52)

/-- The binary64 double nearest 0.8 — the value the bot's preset button
actually passes as the speed factor (0.8 itself is not representable):
`3602879701896397 · 2⁻⁵²`. -/
def dbl08 : ℚ := 3602879701896397 / 2 ^ 52

/-- The binary64 double nearest 1.2 — the value the bot's preset button
actually passes (1.2 itself is not representable):
`5404319552844595 · 2⁻⁵²`. -/
def dbl12 : ℚ := 5404319552844595 / 2 ^ 52

/-- Line 132: `new_sample_rate = int(current_sr * speed_factor)` — the
float product `current_sr * speed_factor` is rounded to binary64 (`fl`)
before `int(...)` truncates it.  (Sample rates are far below 2⁵³, so the
int-to-float conversion of `current_sr` is exact.) -/
def newSampleRate (currentSr : ℕ) (f : ℚ) : ℤ := pyInt (fl ((currentSr : ℚ) * f))

/-- Modelled from the spec: step 3 of §4.3 computes
`newRate = round(currentRate * speedFactor)` (rounding to nearest). -/
def newSampleRateSpec (currentSr : ℕ) (f : ℚ) : ℤ := round ((currentSr : ℚ) * f)

/-- Lines 327 and 333: escape backslash, colon and equals in a metadata
value for the transcoder command line. -/
def escapeMeta (v : List Char) : List Char :=
  pyReplace (pyReplace (pyReplace v ['\\'] ['\\', '\\']) [':'] ['\\', ':']) ['='] ['\\', '=']

/-- The loop body of lines 321-328: append the escaped assignment for a
non-empty tag whose key is not (case-insensitively) `title`, skip the
rest. -/
def tagParamStep (acc : List (List Char × List Char)) (kv : List Char × List Char) :
    List (List Char × List Char) :=
  if kv.2 ≠ [] ∧ pyLower kv.1 ≠ ("title").data then acc ++ [(kv.1, escapeMeta kv.2)]
  else acc

/-- Lines 317-334: the explicit `-metadata key=value` assignments handed to
the transcoder, as (key, escaped value) pairs — every non-empty source tag
whose key is not (case-insensitively) `title`, then the new title.  Line
331's `if new_title:` is a truthiness test: a `None` OR EMPTY derived
title adds no title assignment. -/
def metadataParams (md : List (List Char × List Char)) (newTitle : Option (List Char)) :
    List (List Char × List Char) :=
  (md.foldl tagParamStep []) ++
  (match newTitle with
   | some t => if t ≠ [] then [(("title").data, escapeMeta t)] else []
   | none => [])

/-- Line 571: the fixed allow-set of directly playable formats. -/
def playableFormats : List (List Char) :=
  [(".mp3"), (".ogg"), (".m4a"), (".aac")].map String.data

/-- Lines 569-572 after suffix extraction: lower-case the extension and
test membership in the allow-set. -/
def isDirectlyPlayable (ext : List Char) : Bool :=
  playableFormats.contains (pyLower ext)

/-- Lines 559-572: `is_telegram_playable_format` on a file path. -/
def is_telegram_playable_format (filePath : List Char) : Bool :=
  isDirectlyPlayable (pySuffix filePath)

/-- The external processes `process_audio` can invoke, in order. -/
inductive ExtCall where
  | probeSampleRate
  | probeTags
  | transcode
deriving DecidableEq

/-- Failure classification of the distinct `return False` sites of
`process_audio` (lines 111-113, 361-363, 366-368), using the error kinds
of spec §7. -/
inductive TransformError where
  | inputNotFound
  | transcodeFailed
  | emptyOutput
deriving DecidableEq

/-- The environment `process_audio` runs against: the file system and the
observable behaviour of the external probe/transcode processes. -/
structure ProcEnv where
  fsFiles : List (List Char)
  probedSampleRate : Option ℕ
  probedTags : List (List Char × List Char)
  transcodeExitZero : Bool
  outputNonempty : Bool

/-- Python `metadata.get(k, '')` on the probed tag dictionary. -/
def getTagValue (md : List (List Char × List Char)) (k : List Char) : List Char :=
  match md.find? (fun kv => kv.1 == k) with
  | some kv => kv.2
  | none => []

/-- Lines 98-371: the control flow of `process_audio`, returning the
classified result together with the trace of external invocations.  The
input-existence check precedes every external call; afterwards the sample
rate is probed (44100 default), the tags are probed, the new title and the
explicit tag assignments are computed, and the transcoder's exit status
and the output size decide the result. -/
def process_audio (env : ProcEnv) (inputPath : List Char) (f : ℚ)
    (_outputPath : List Char) (originalFilename : Option (List Char)) :
    Except TransformError Unit × List ExtCall :=
  if inputPath ∈ env.fsFiles then
    let currentSr := env.probedSampleRate.getD 44100
    let _newRate := newSampleRate currentSr f
    let md := env.probedTags
    let newTitle :=
      deriveNewTitle (getTagValue md (("title").data)) (getTagValue md (("artist").data))
        originalFilename f
    let _params := metadataParams md newTitle
    let calls := [ExtCall.probeSampleRate, ExtCall.probeTags, ExtCall.transcode]
    if env.transcodeExitZero = false then (Except.error TransformError.transcodeFailed, calls)
    else if env.outputNonempty = false then (Except.error TransformError.emptyOutput, calls)
    else (Except.ok (), calls)
  else (Except.error TransformError.inputNotFound, [])

/-! ### Helper lemmas about the string primitives -/

theorem replaceAux_nil (pat rep : List Char) (fuel : ℕ) :
    replaceAux pat rep fuel [] = [] := by
  cases fuel <;> rfl

theorem replaceAux_fuel (pat rep : List Char) :
    ∀ (f : ℕ), ∀ (g : ℕ) (s : List Char), s.length ≤ f → s.length ≤ g →
      replaceAux pat rep f s = replaceAux pat rep g s := by
  intro f
  induction f with
  | zero =>
    intro g s hf _
    have : s = [] := List.length_eq_zero.mp (Nat.le_zero.mp hf)
    subst this
    rw [replaceAux_nil, replaceAux_nil]
  | succ n ih =>
    intro g s hf hg
    cases s with
    | nil => rw [replaceAux_nil, replaceAux_nil]
    | cons c r =>
      cases g with
      | zero => exact absurd hg (by simp)
      | succ m =>
        show (if pat ≠ [] ∧ pat.isPrefixOf (c :: r) then
            rep ++ replaceAux pat rep n ((c :: r).drop pat.length)
          else c :: replaceAux pat rep n r) =
          (if pat ≠ [] ∧ pat.isPrefixOf (c :: r) then
            rep ++ replaceAux pat rep m ((c :: r).drop pat.length)
          else c :: replaceAux pat rep m r)
        by_cases hc : pat ≠ [] ∧ pat.isPrefixOf (c :: r)
        · rw [if_pos hc, if_pos hc]
          congr 1
          have hplen : 1 ≤ pat.length := by
            cases pat with
            | nil => exact absurd rfl hc.1
            | cons p pt => simp
          apply ih
          · calc ((c :: r).drop pat.length).length = (c :: r).length - pat.length := by
                  rw [List.length_drop]
              _ ≤ (c :: r).length - 1 := Nat.sub_le_sub_left hplen _
              _ ≤ n := by simpa using Nat.sub_le_sub_right hf 1
          · calc ((c :: r).drop pat.length).length = (c :: r).length - pat.length := by
                  rw [List.length_drop]
              _ ≤ (c :: r).length - 1 := Nat.sub_le_sub_left hplen _
              _ ≤ m := by simpa using Nat.sub_le_sub_right hg 1
        · rw [if_neg hc, if_neg hc]
          congr 1
          exact ih m r (by simpa using Nat.le_of_succ_le_succ hf)
            (by simpa using Nat.le_of_succ_le_succ hg)

theorem replaceAux_skip (pat rep : List Char) (hp : pat ≠ []) :
    ∀ (a b : List Char),
      (∀ i, i < a.length → pat.isPrefixOf ((a ++ pat ++ b).drop i) = false) →
      pyReplace (a ++ pat ++ b) pat rep = a ++ rep ++ pyReplace b pat rep := by
  intro a
  induction a with
  | nil =>
    intro b _
    cases pat with
    | nil => exact absurd rfl hp
    | cons p pt =>
      show replaceAux (p :: pt) rep ((([] : List Char) ++ (p :: pt) ++ b).length)
          ([] ++ (p :: pt) ++ b) = [] ++ rep ++ pyReplace b (p :: pt) rep
      simp only [List.nil_append, List.length_append, List.length_cons]
      show replaceAux (p :: pt) rep (pt.length + 1 + b.length) (p :: (pt ++ b)) = _
      have harith : pt.length + 1 + b.length = (pt.length + b.length) + 1 := by omega
      rw [harith]
      show (if (p :: pt) ≠ [] ∧ (p :: pt).isPrefixOf (p :: (pt ++ b)) then
          rep ++ replaceAux (p :: pt) rep (pt.length + b.length)
            ((p :: (pt ++ b)).drop (p :: pt).length)
        else p :: replaceAux (p :: pt) rep (pt.length + b.length) (pt ++ b)) = _
      rw [if_pos ⟨by simp, List.isPrefixOf_iff_prefix.mpr (by
        show (p :: pt) <+: ((p :: pt) ++ b)
        exact List.prefix_append _ _)⟩]
      have hdrop : (p :: (pt ++ b)).drop (p :: pt).length = b := by
        show ((p :: pt) ++ b).drop (p :: pt).length = b
        exact List.drop_left _ _
      rw [hdrop]
      have : replaceAux (p :: pt) rep (pt.length + b.length) b =
          replaceAux (p :: pt) rep b.length b :=
        replaceAux_fuel _ _ _ _ _ (by omega) (le_refl _)
      rw [this]
      rfl
  | cons c a' ih =>
    intro b hocc
    have h0 : pat.isPrefixOf (c :: (a' ++ pat ++ b)) = false := by
      have := hocc 0 (by simp)
      simpa using this
    show replaceAux pat rep (((c :: a') ++ pat ++ b).length) ((c :: a') ++ pat ++ b) = _
    have hshape : (c :: a') ++ pat ++ b = c :: (a' ++ pat ++ b) := by simp
    rw [hshape]
    show replaceAux pat rep ((c :: (a' ++ pat ++ b)).length) (c :: (a' ++ pat ++ b)) = _
    rw [List.length_cons]
    show (if pat ≠ [] ∧ pat.isPrefixOf (c :: (a' ++ pat ++ b)) then
        rep ++ replaceAux pat rep ((a' ++ pat ++ b).length)
          ((c :: (a' ++ pat ++ b)).drop pat.length)
      else c :: replaceAux pat rep ((a' ++ pat ++ b).length) (a' ++ pat ++ b)) = _
    rw [if_neg (by
      rintro ⟨-, hpre⟩
      rw [h0] at hpre
      exact Bool.false_ne_true hpre)]
    have htail : replaceAux pat rep ((a' ++ pat ++ b).length) (a' ++ pat ++ b) =
        a' ++ rep ++ pyReplace b pat rep := by
      apply ih
      intro i hi
      have := hocc (i + 1) (by simpa using Nat.succ_lt_succ hi)
      rw [hshape] at this
      simpa using this
    rw [htail]
    simp

theorem pyReplace_skip (pat rep a b : List Char) (hp : pat ≠ [])
    (h : ∀ i, i < a.length → pat.isPrefixOf ((a ++ pat ++ b).drop i) = false) :
    pyReplace (a ++ pat ++ b) pat rep = a ++ rep ++ pyReplace b pat rep :=
  replaceAux_skip pat rep hp a b h

theorem speedTagOf_one : speedTagOf 1 = [] := by
  unfold speedTagOf
  rw [if_neg (lt_irrefl (1 : ℚ)), if_neg (lt_irrefl (1 : ℚ))]

theorem rne_eval_lt (x : ℚ) (n : ℤ) (hfl : ⌊x⌋ = n) (hlt : x - n < 1/2) : rne x = n := by
  unfold rne
  rw [hfl, if_pos hlt]

theorem rne_eval_gt (x : ℚ) (n : ℤ) (hfl : ⌊x⌋ = n) (hgt : 1/2 < x - n) : rne x = n + 1 := by
  unfold rne
  rw [hfl, if_neg (not_lt.mpr (le_of_lt hgt)), if_pos hgt]

theorem rne_nonneg (x : ℚ) (h : 0 ≤ x) : 0 ≤ rne x := by
  unfold rne
  have hf : 0 ≤ ⌊x⌋ := Int.floor_nonneg.mpr h
  split_ifs <;> omega

theorem fl_nonneg (q : ℚ) (h : 0 ≤ q) : 0 ≤ fl q := by
  unfold fl
  by_cases hq : q = 0
  · rw [if_pos hq]
  · rw [if_neg hq]
    have hx : 0 ≤ q / 2 ^ (Int.log 2 |q| - 52) :=
      div_nonneg h (le_of_lt (zpow_pos (by norm_num) _))
    exact mul_nonneg (by exact_mod_cast rne_nonneg _ hx) (le_of_lt (zpow_pos (by norm_num) _))

theorem int_log2_eq (r : ℚ) (L : ℤ) (h1 : (2:ℚ) ^ L ≤ r) (h2 : r < (2:ℚ) ^ (L + 1)) :
    Int.log 2 r = L := by
  have hb : (1:ℕ) < 2 := by norm_num
  have hL2 : ((2:ℕ):ℚ) = (2:ℚ) := by norm_num
  have hr : (0:ℚ) < r := lt_of_lt_of_le (zpow_pos (by norm_num) L) h1
  have hle : L ≤ Int.log 2 r := by
    have hm := Int.log_mono_right (b := 2) (zpow_pos (by norm_num : (0:ℚ) < 2) L) h1
    rw [show ((2:ℚ) ^ L) = ((2:ℕ):ℚ) ^ L by rw [hL2]] at hm
    rw [Int.log_zpow hb L] at hm
    exact hm
  have hlt : Int.log 2 r < L + 1 := by
    by_contra hcon
    push_neg at hcon
    have h3 : (2:ℚ) ^ (L + 1) ≤ (2:ℚ) ^ (Int.log 2 r) :=
      zpow_le_zpow_right₀ (by norm_num) hcon
    have h4 : ((2:ℕ):ℚ) ^ (Int.log 2 r) ≤ r := Int.zpow_log_le_self hb hr
    rw [hL2] at h4
    exact absurd (le_trans h3 h4) (not_le.mpr h2)
  omega

theorem fl_eval (q : ℚ) (L : ℤ) (k : ℕ) (R : ℤ)
    (hq : q ≠ 0)
    (hk : L - 52 = -(k : ℤ))
    (hlog : Int.log 2 |q| = L)
    (hrne : rne (q * 2 ^ k) = R) :
    fl q = (R : ℚ) / 2 ^ k := by
  unfold fl
  rw [if_neg hq, hlog, hk, zpow_neg, zpow_natCast, div_eq_mul_inv q, inv_inv, hrne]
  exact (div_eq_mul_inv _ _).symm

theorem fl_44100_dbl08 : fl ((44100 : ℚ) * dbl08) = (4848846278492160 : ℚ) / 2 ^ 37 := by
  exact fl_eval _ 15 37 4848846278492160
    (by norm_num [dbl08])
    (by norm_num)
    (by
      rw [show |(44100 : ℚ) * dbl08| = (44100 : ℚ) * dbl08 from abs_of_pos (by norm_num [dbl08])]
      exact int_log2_eq _ 15 (by norm_num [dbl08]) (by norm_num [dbl08]))
    (rne_eval_lt _ 4848846278492160
      (by norm_num [dbl08, Int.floor_eq_iff])
      (by push_cast; norm_num [dbl08]))

theorem fl_44100_dbl12 : fl ((44100 : ℚ) * dbl12) = (7273269417738240 : ℚ) / 2 ^ 37 := by
  have h := fl_eval ((44100 : ℚ) * dbl12) 15 37 (7273269417738239 + 1)
    (by norm_num [dbl12])
    (by norm_num)
    (by
      rw [show |(44100 : ℚ) * dbl12| = (44100 : ℚ) * dbl12 from abs_of_pos (by norm_num [dbl12])]
      exact int_log2_eq _ 15 (by norm_num [dbl12]) (by norm_num [dbl12]))
    (rne_eval_gt _ 7273269417738239
      (by norm_num [dbl12, Int.floor_eq_iff])
      (by push_cast; norm_num [dbl12]))
  rw [h]
  norm_num

theorem fl_44101_dbl08 : fl ((44101 : ℚ) * dbl08) = (4848956229654938 : ℚ) / 2 ^ 37 := by
  have h := fl_eval ((44101 : ℚ) * dbl08) 15 37 (4848956229654937 + 1)
    (by norm_num [dbl08])
    (by norm_num)
    (by
      rw [show |(44101 : ℚ) * dbl08| = (44101 : ℚ) * dbl08 from abs_of_pos (by norm_num [dbl08])]
      exact int_log2_eq _ 15 (by norm_num [dbl08]) (by norm_num [dbl08]))
    (rne_eval_gt _ 4848956229654937
      (by norm_num [dbl08, Int.floor_eq_iff])
      (by push_cast; norm_num [dbl08]))
  rw [h]
  norm_num

theorem foldl_tagParamStep (md : List (List Char × List Char)) :
    ∀ acc, md.foldl tagParamStep acc = acc ++ md.foldl tagParamStep [] := by
  induction md with
  | nil => intro acc; simp
  | cons kv md' ih =>
    intro acc
    rw [List.foldl_cons, List.foldl_cons, ih (tagParamStep acc kv), ih (tagParamStep [] kv)]
    have hstep : tagParamStep acc kv = acc ++ tagParamStep [] kv := by
      unfold tagParamStep
      by_cases h : kv.2 ≠ [] ∧ pyLower kv.1 ≠ ("title").data
      · rw [if_pos h, if_pos h]
        simp
      · rw [if_neg h, if_neg h]
        simp
    rw [hstep, List.append_assoc]

theorem foldl_tagParamStep_filter (md : List (List Char × List Char)) :
    md.foldl tagParamStep [] =
      (md.filter (fun kv => decide (kv.2 ≠ [] ∧ pyLower kv.1 ≠ ("title").data))).map
        (fun kv => (kv.1, escapeMeta kv.2)) := by
  induction md with
  | nil => rfl
  | cons kv md' ih =>
    rw [List.foldl_cons, foldl_tagParamStep, List.filter_cons]
    by_cases h : kv.2 ≠ [] ∧ pyLower kv.1 ≠ ("title").data
    · rw [if_pos (by simpa using h)]
      rw [show tagParamStep [] kv = [(kv.1, escapeMeta kv.2)] from by
        unfold tagParamStep; rw [if_pos h]; simp]
      rw [List.map_cons, ih]
      simp
    · rw [if_neg (by simpa using h)]
      rw [show tagParamStep [] kv = [] from by unfold tagParamStep; rw [if_neg h]]
      rw [ih]
      simp

/-! ### Claim theorems -/

/-- C1: the tag assignments passed to the transcoder are exactly every
non-empty source tag whose key is not (case-insensitively) `title`, in
order, followed by the single newly derived title assignment when a
truthy (non-empty) derived title exists — line 331's `if new_title:`
drops an absent OR empty derived title; every assignment whose key is
case-insensitively `title` carries the non-empty newly derived title, so
the old title tag never appears. -/
theorem claim_C1 (md : List (List Char × List Char)) (nt : Option (List Char)) :
    metadataParams md nt =
      ((md.filter (fun kv => decide (kv.2 ≠ [] ∧ pyLower kv.1 ≠ ("title").data))).map
        (fun kv => (kv.1, escapeMeta kv.2))) ++
      (match nt with
       | some t => if t ≠ [] then [(("title").data, escapeMeta t)] else []
       | none => []) ∧
    ∀ p ∈ metadataParams md nt, pyLower p.1 = ("title").data →
      ∃ t, nt = some t ∧ t ≠ [] ∧ p = (("title").data, escapeMeta t) := by
  constructor
  · unfold metadataParams
    rw [foldl_tagParamStep_filter]
  · intro p hp hpt
    unfold metadataParams at hp
    rcases List.mem_append.mp hp with h1 | h2
    · rw [foldl_tagParamStep_filter] at h1
      obtain ⟨kv, hkv, hpe⟩ := List.mem_map.mp h1
      have hfil := List.of_mem_filter hkv
      rw [← hpe] at hpt
      exact absurd hpt (of_decide_eq_true hfil).2
    · cases nt with
      | some t =>
        have h2' : p ∈ (if t ≠ [] then [(("title").data, escapeMeta t)] else []) := h2
        by_cases ht : t ≠ []
        · rw [if_pos ht] at h2'
          have : p = (("title").data, escapeMeta t) := by simpa using h2'
          exact ⟨t, rfl, ht, this⟩
        · rw [if_neg ht] at h2'
          exact absurd h2' (by simp)
      | none => exact absurd h2 (by simp)

/-- C1 witness: a concrete tag set with an `artist` tag, a differently
capitalised `Title` tag, and an empty `comment` tag. -/
theorem claim_C1_witness :
    metadataParams
        [((("artist").data), (("Some One").data)),
         ((("Title").data), (("Old: Name").data)),
         ((("comment").data), [])] (some (("New").data)) =
      [((("artist").data), (("Some One").data)),
       ((("title").data), (("New").data))] ∧
    ∃ t, (some (("New").data)) = some t ∧ t ≠ [] ∧
      (((("title").data), escapeMeta (("New").data)) : List Char × List Char) =
        ((("title").data), escapeMeta t) := by
  constructor
  · rw [(claim_C1
      [((("artist").data), (("Some One").data)),
       ((("Title").data), (("Old: Name").data)),
       ((("comment").data), [])] (some (("New").data))).1]
    decide
  · exact (claim_C1
      [((("artist").data), (("Some One").data)),
       ((("Title").data), (("Old: Name").data)),
       ((("comment").data), [])] (some (("New").data))).2
      (((("title").data), escapeMeta (("New").data))) (by decide) (by decide)

/-- C2: for title "Artist Name - Track Title" and artist "Artist Name" the
derivation produces "Track Title" followed by the speed tag for the given
factor. -/
theorem claim_C2 (f : ℚ) :
    deriveNewTitle (("Artist Name - Track Title").data) (("Artist Name").data) none f =
      some (("Track Title").data ++ speedTagOf f) := by
  unfold deriveNewTitle
  rw [show deriveBaseTitle (("Artist Name - Track Title").data) (("Artist Name").data) none =
      some (("Track Title").data) from by decide]
  rfl

/-- C4 (amended): the resample target rate is the truncation toward zero
`int(...)` of the binary64 product `fl(currentRate * speedFactor)` — its
floor for non-negative factors — not round-to-nearest of the product; at
the preset factors (the doubles nearest 0.8 and 1.2) with rate 44100 the
results are 35280 and 52920, agreeing with the spec's example values. -/
theorem claim_C4 (sr : ℕ) (f : ℚ) (h : 0 ≤ f) :
    newSampleRate sr f = ⌊fl ((sr : ℚ) * f)⌋ ∧
    newSampleRate 44100 dbl08 = 35280 ∧
    newSampleRate 44100 dbl12 = 52920 := by
  refine ⟨?_, ?_, ?_⟩
  · unfold newSampleRate pyInt
    rw [if_pos (fl_nonneg _ (mul_nonneg (Nat.cast_nonneg sr) h))]
  · unfold newSampleRate
    rw [show (((44100 : ℕ) : ℚ)) = (44100 : ℚ) from by norm_num, fl_44100_dbl08]
    unfold pyInt
    rw [if_pos (by norm_num)]
    norm_num [Int.floor_eq_iff]
  · unfold newSampleRate
    rw [show (((44100 : ℕ) : ℚ)) = (44100 : ℚ) from by norm_num, fl_44100_dbl12]
    unfold pyInt
    rw [if_pos (by norm_num)]
    norm_num [Int.floor_eq_iff]

/-- C4 counterexample: at current rate 44101 and the preset factor (the
double nearest 0.8) the code truncates the double product 35280.800…3 to
35280 while the spec's round-to-nearest gives 35281. -/
theorem claim_C4_counterexample :
    newSampleRate 44101 dbl08 ≠ newSampleRateSpec 44101 dbl08 := by
  have h1 : newSampleRate 44101 dbl08 = 35280 := by
    unfold newSampleRate
    rw [show (((44101 : ℕ) : ℚ)) = (44101 : ℚ) from by norm_num, fl_44101_dbl08]
    unfold pyInt
    rw [if_pos (by norm_num)]
    norm_num [Int.floor_eq_iff]
  have h2 : newSampleRateSpec 44101 dbl08 = 35281 := by
    unfold newSampleRateSpec
    rw [show (((44101 : ℕ) : ℚ)) = (44101 : ℚ) from by norm_num]
    norm_num [dbl08, round_eq, Int.floor_eq_iff]
  rw [h1, h2]
  decide

/-- C4 witness: the amended theorem applied at rate 44100 and factor 1. -/
theorem claim_C4_witness :
    (0 : ℚ) ≤ 1 ∧
    (newSampleRate 44100 1 = ⌊fl (((44100 : ℕ) : ℚ) * 1)⌋ ∧
     newSampleRate 44100 dbl08 = 35280 ∧
     newSampleRate 44100 dbl12 = 52920) :=
  ⟨zero_le_one, claim_C4 44100 1 zero_le_one⟩

/-- C8: when the input file does not exist, `process_audio` fails as
input-not-found without invoking any external process. -/
theorem claim_C8 (env : ProcEnv) (inputPath outputPath : List Char) (f : ℚ)
    (ofn : Option (List Char)) (h : inputPath ∉ env.fsFiles) :
    process_audio env inputPath f outputPath ofn =
      (Except.error TransformError.inputNotFound, []) := by
  unfold process_audio
  rw [if_neg h]

/-- C8 witness: a concrete empty file system. -/
theorem claim_C8_witness :
    (("x.mp3").data ∉ (ProcEnv.mk [] none [] true true).fsFiles) ∧
    process_audio (ProcEnv.mk [] none [] true true) (("x.mp3").data) 1 [] none =
      (Except.error TransformError.inputNotFound, []) :=
  ⟨by decide, claim_C8 (ProcEnv.mk [] none [] true true) (("x.mp3").data) [] 1 none (by decide)⟩

/-- C9: `is_telegram_playable_format` lower-cases the extension and tests
it against exactly the allow-set mp3/ogg/m4a/aac; `.wav` is rejected and
`.mp3` accepted. -/
theorem claim_C9 :
    (∀ ext : List Char, isDirectlyPlayable ext = true ↔ pyLower ext ∈ playableFormats) ∧
    isDirectlyPlayable ((".wav").data) = false ∧
    isDirectlyPlayable ((".mp3").data) = true ∧
    (∀ p : List Char, is_telegram_playable_format p = isDirectlyPlayable (pySuffix p)) := by
  refine ⟨?_, by decide, by decide, fun p => rfl⟩
  intro ext
  show List.elem (pyLower ext) playableFormats = true ↔ _
  exact List.elem_iff

/-- C9 witness: the allow-set test applied to the upper-cased `.M4A`. -/
theorem claim_C9_witness :
    isDirectlyPlayable ((".M4A").data) = true ↔ pyLower ((".M4A").data) ∈ playableFormats :=
  claim_C9.1 ((".M4A").data)

/-- C10: the speed-annotation stripping removes occurrences of
`" (Slowed)"` / `" (Speed Up)"` anywhere in the string — any occurrence
preceded by a match-free prefix is deleted, not only a trailing suffix —
and the interior annotations of the concrete titles disappear in both the
title-cleaning and the filename-stem paths. -/
theorem claim_C10 :
    (∀ a b : List Char,
      (∀ i, i < a.length → slowedTag.isPrefixOf ((a ++ slowedTag ++ b).drop i) = false) →
      pyReplace (a ++ slowedTag ++ b) slowedTag [] = a ++ pyReplace b slowedTag []) ∧
    (∀ a b : List Char,
      (∀ i, i < a.length → speedUpTag.isPrefixOf ((a ++ speedUpTag ++ b).drop i) = false) →
      pyReplace (a ++ speedUpTag ++ b) speedUpTag [] = a ++ pyReplace b speedUpTag []) ∧
    cleanTitle (("My (Slowed) Song").data) = (("My Song").data) ∧
    stemCleanOf (("My (Speed Up) Song.mp3").data) = (("My Song").data) := by
  refine ⟨?_, ?_, by decide, by decide⟩
  · intro a b h
    have := pyReplace_skip slowedTag [] a b (by decide) h
    simpa using this
  · intro a b h
    have := pyReplace_skip speedUpTag [] a b (by decide) h
    simpa using this

/-- C10 witness: the interior `" (Slowed)"` of "My (Slowed) Song" is
removed by a single replace pass. -/
theorem claim_C10_witness :
    (∀ i, i < (("My").data).length →
      slowedTag.isPrefixOf (((("My").data) ++ slowedTag ++ ((" Song").data)).drop i) = false) ∧
    pyReplace ((("My").data) ++ slowedTag ++ ((" Song").data)) slowedTag [] =
      (("My").data) ++ pyReplace ((" Song").data) slowedTag [] :=
  ⟨by decide, claim_C10.1 (("My").data) ((" Song").data) (by decide)⟩

/-- C5 (amended): provided the single-pass stripping and the cascade leave
no speed-annotation occurrence in the derived song title, the resulting
title is that annotation-free base followed by exactly the new speed tag,
and carries no tag at all at factor 1.0.  (Unconditionally this fails: a
single replace pass can splice a new annotation together, see the
counterexample.) -/
theorem claim_C5 (t a : List Char) (fn : Option (List Char)) (f : ℚ)
    (ht : t ≠ [])
    (h1 : containsSub slowedTag (cascadeSong (cleanTitle t) (pyStrip a)) = false)
    (h2 : containsSub speedUpTag (cascadeSong (cleanTitle t) (pyStrip a)) = false) :
    ∃ base, deriveNewTitle t a fn f = some (base ++ speedTagOf f) ∧
      containsSub slowedTag base = false ∧ containsSub speedUpTag base = false ∧
      (f = 1 → deriveNewTitle t a fn f = some base) := by
  refine ⟨cascadeSong (cleanTitle t) (pyStrip a), ?_, h1, h2, ?_⟩
  · unfold deriveNewTitle deriveBaseTitle
    rw [if_pos ht]
    rfl
  · intro hf
    subst hf
    unfold deriveNewTitle deriveBaseTitle
    rw [if_pos ht]
    simp [speedTagOf_one]

/-- C5 counterexample: the title "a (Sl (Slowed)owed) (Slowed)" ends in a
speed annotation, yet at factor 1.0 (where no annotation may remain) the
derived title still contains " (Slowed)": the one-pass replace splices the
fragments "a (Sl"/"owed)" into a fresh annotation. -/
theorem claim_C5_counterexample :
    slowedTag.isSuffixOf (("a (Sl (Slowed)owed) (Slowed)").data) = true ∧
    deriveNewTitle (("a (Sl (Slowed)owed) (Slowed)").data) [] none 1 =
      some (("a (Slowed)").data) ∧
    containsSub slowedTag (("a (Slowed)").data) = true := by
  refine ⟨by decide, ?_, by decide⟩
  unfold deriveNewTitle
  rw [show deriveBaseTitle (("a (Sl (Slowed)owed) (Slowed)").data) [] none =
      some (("a (Slowed)").data) from by decide]
  simp [speedTagOf_one]

/-- C5 witness: the amended theorem applied to "Song (Slowed)" with no
artist at factor 0.8. -/
theorem claim_C5_witness :
    ((("Song (Slowed)").data) ≠ [] ∧
      containsSub slowedTag
        (cascadeSong (cleanTitle (("Song (Slowed)").data)) (pyStrip [])) = false ∧
      containsSub speedUpTag
        (cascadeSong (cleanTitle (("Song (Slowed)").data)) (pyStrip [])) = false) ∧
    (∃ base, deriveNewTitle (("Song (Slowed)").data) [] none (4/5) =
        some (base ++ speedTagOf (4/5)) ∧
      containsSub slowedTag base = false ∧ containsSub speedUpTag base = false ∧
      ((4/5 : ℚ) = 1 → deriveNewTitle (("Song (Slowed)").data) [] none (4/5) = some base)) :=
  ⟨⟨by decide, by decide, by decide⟩,
    claim_C5 (("Song (Slowed)").data) [] none (4/5) (by decide) (by decide) (by decide)⟩

/-- C6 (amended): the fall-through-on-empty behaviour holds for the last
two stages but not across the cascade: the final substring-removal stage
never turns a non-empty tentative title into an empty one, and the
general-separator stage never applies an empty best match (its
`if best_match:` truthiness test), but the separator-match stage can
accept an empty derived title (see the counterexample), contrary to the
claim. -/
theorem claim_C6 (tc song artist : List Char) (h : song ≠ []) :
    substringRemovalStage tc song artist ≠ [] ∧
    ∀ (tc2 s : List Char), longestSideStage tc2 = some s → s ≠ [] := by
  constructor
  · unfold substringRemovalStage
    by_cases hcond : artist ≠ [] ∧
        containsSub (pyLower artist) (pyLower song) = true ∧ song ≠ tc
    · rw [if_pos hcond]
      cases hsp : splitOnce artist song with
      | none => exact h
      | some pr =>
        show (if stripLeadSeps dashSepSpaceChars (pyStrip (pr.1 ++ pr.2)) ≠ [] then
            stripLeadSeps dashSepSpaceChars (pyStrip (pr.1 ++ pr.2)) else song) ≠ []
        by_cases hr : stripLeadSeps dashSepSpaceChars (pyStrip (pr.1 ++ pr.2)) ≠ []
        · rw [if_pos hr]
          exact hr
        · rw [if_neg hr]
          exact h
    · rw [if_neg hcond]
      exact h
  · intro tc2 s hs
    unfold longestSideStage at hs
    cases hm : (separatorsList.foldl (longestSideStep tc2)
        ((none : Option (List Char)), (-1 : Int))).1 with
    | none =>
      rw [hm] at hs
      exact absurd hs (by simp)
    | some b =>
      rw [hm] at hs
      have hs' : (if b ≠ [] then some b else none) = some s := hs
      by_cases hb : b ≠ []
      · rw [if_pos hb] at hs'
        have : b = s := by simpa using hs'
        rw [← this]
        exact hb
      · rw [if_neg hb] at hs'
        exact absurd hs' (by simp)

/-- C6 counterexample: for title "Artist -" and artist "Artist" the
separator-match stage accepts the empty remainder, and the pipeline emits
an empty title (at factor 1.0) although the cleaned input title is
non-empty. -/
theorem claim_C6_counterexample :
    cleanTitle (("Artist -").data) ≠ [] ∧
    deriveNewTitle (("Artist -").data) (("Artist").data) none 1 = some [] := by
  refine ⟨by decide, ?_⟩
  unfold deriveNewTitle
  rw [show deriveBaseTitle (("Artist -").data) (("Artist").data) none = some [] from by decide]
  simp [speedTagOf_one]

/-- C6 witness: the amended non-emptiness guarantees at a concrete input. -/
theorem claim_C6_witness :
    (("b").data ≠ []) ∧
    (substringRemovalStage (("a").data) (("b").data) (("c").data) ≠ [] ∧
      ∀ (tc2 s : List Char), longestSideStage tc2 = some s → s ≠ []) :=
  ⟨by decide, claim_C6 (("a").data) (("b").data) (("c").data) (by decide)⟩

/-- C7 (amended): the final substring-removal stage DETECTS the artist
case-insensitively but REMOVES only an exact-case occurrence — when the
artist occurs in the tentative title only with different capitalisation,
the title is returned unchanged. -/
theorem claim_C7 (tc song artist : List Char)
    (h1 : artist ≠ [])
    (h2 : containsSub (pyLower artist) (pyLower song) = true)
    (h3 : song ≠ tc)
    (h4 : splitOnce artist song = none) :
    substringRemovalStage tc song artist = song := by
  unfold substringRemovalStage
  rw [if_pos ⟨h1, h2, h3⟩, h4]

/-- C7 counterexample: with artist "QQ" and title "A - b qq c" the lower
case occurrence "qq" is detected but not removed — the derived title still
contains the artist, contradicting removal "regardless of its
capitalization". -/
theorem claim_C7_counterexample :
    deriveNewTitle (("A - b qq c").data) (("QQ").data) none 1 = some (("b qq c").data) ∧
    containsSub (pyLower (("QQ").data)) (pyLower (("b qq c").data)) = true := by
  refine ⟨?_, by decide⟩
  unfold deriveNewTitle
  rw [show deriveBaseTitle (("A - b qq c").data) (("QQ").data) none =
      some (("b qq c").data) from by decide]
  simp [speedTagOf_one]

/-- C7 witness: the amended theorem at the concrete mixed-case input. -/
theorem claim_C7_witness :
    ((("QQ").data) ≠ [] ∧
      containsSub (pyLower (("QQ").data)) (pyLower (("b qq c").data)) = true ∧
      (("b qq c").data) ≠ (("A - b qq c").data) ∧
      splitOnce (("QQ").data) (("b qq c").data) = none) ∧
    substringRemovalStage (("A - b qq c").data) (("b qq c").data) (("QQ").data) =
      (("b qq c").data) :=
  ⟨⟨by decide, by decide, by decide, by decide⟩,
    claim_C7 (("A - b qq c").data) (("b qq c").data) (("QQ").data)
      (by decide) (by decide) (by decide) (by decide)⟩
